import Mathlib

/-!
Verification of the core of boost::pfr (files
include/boost/pfr/detail/offset_based_getter.hpp and
include/boost/pfr/detail/make_flat_tuple_of_references.hpp), shallowly
embedded: member types are represented by their compile-time metadata
(sizeof and alignof), aggregate layout by the usual align-up placement in
declaration order, references by byte addresses, and memory by a function
from byte addresses to byte values.
-/

namespace Pfr

/-- Compile-time metadata of a member type: its sizeof and alignof in bytes. -/
structure MemberMeta where
  size : Nat
  align : Nat
deriving DecidableEq

/-- Round `n` up to the next multiple of `a` (aggregate-layout padding rule). -/
def alignUp (n a : Nat) : Nat := ((n + a - 1) / a) * a

/-- Byte offsets of members laid out in declaration order starting at byte cursor
`cur`: each member is placed at the cursor rounded up to its alignment, and the
cursor advances past the member's storage. -/
def offsetsFrom (cur : Nat) : List MemberMeta → List Nat
  | [] => []
  | m :: ms => alignUp cur m.align :: offsetsFrom (alignUp cur m.align + m.size) ms

/-- Byte offsets of the members of the aggregate described by `S`. -/
def memberOffsets (S : List MemberMeta) : List Nat := offsetsFrom 0 S

/-- Byte cursor after laying out all members of `S` starting at `cur`. -/
def endCursor (cur : Nat) : List MemberMeta → Nat
  | [] => cur
  | m :: ms => endCursor (alignUp cur m.align + m.size) ms

/-- alignof of the aggregate described by `S`: the maximum member alignment. -/
def structAlign (S : List MemberMeta) : Nat := S.foldr (fun m a => max m.align a) 1

/-- sizeof of the aggregate described by `S`: the end cursor rounded up to the
aggregate's own alignment. -/
def sizeofStruct (S : List MemberMeta) : Nat := alignUp (endCursor 0 S) (structAlign S)

/-- Metadata of internal_aligned_storage s a, the struct holding alignas(a)
char storage_[s]: alignment `a`, size `s` rounded up to a multiple of `a`. -/
def internal_aligned_storage (s a : Nat) : MemberMeta := ⟨alignUp s a, a⟩

/-- tuple_of_aligned_storage: replace each member type of `S` by an aligned
storage cell of the same size and alignment. -/
def tuple_of_aligned_storage (S : List MemberMeta) : List MemberMeta :=
  S.map (fun m => internal_aligned_storage m.size m.align)

/-- C++ guarantees for genuine object types: every member has positive alignment
and a size that is a multiple of its alignment. -/
def WellFormedMeta (S : List MemberMeta) : Prop :=
  ∀ m ∈ S, 0 < m.align ∧ m.align ∣ m.size

instance (S : List MemberMeta) : Decidable (WellFormedMeta S) :=
  List.decidableBAll _ S

/-- Descriptor of the template argument U of offset_based_getter: its size,
alignment, and whether it is const, volatile or reference qualified. -/
structure TypeDesc where
  size : Nat
  align : Nat
  is_const : Bool
  is_volatile : Bool
  is_reference : Bool

namespace offset_based_getter

/-- The conjunction of the five static assertions guarding instantiation of
offset_based_getter with record type `U` and member sequence `S`: matching
size, matching alignment, and `U` free of const, reference and volatile. -/
def statics_ok (U : TypeDesc) (S : List MemberMeta) : Bool :=
  (U.size == sizeofStruct S) && (U.align == structAlign S) &&
  (!U.is_const) && (!U.is_reference) && (!U.is_volatile)

/-- offset idx, with the local surrogate object (a tuple_of_aligned_storage of
`S`) constructed at stack address `b`: the address of the idx-th cell of the
surrogate minus the address of the surrogate itself. -/
def offsetAt (b : Nat) (S : List MemberMeta) (idx : Nat) : Nat :=
  (b + (memberOffsets (tuple_of_aligned_storage S)).getD idx 0) - b

/-- The offset value used by get_pointer (the surrogate base address cancels,
so the canonical instance at base 0 is used). -/
def offset (S : List MemberMeta) (idx : Nat) : Nat := offsetAt 0 S idx

/-- get_pointer with the surrogate constructed at stack address `b`: cast the
record address `u` to a byte pointer, add the computed offset, cast back. -/
def get_pointerAt (b : Nat) (S : List MemberMeta) (u : Nat) (idx : Nat) : Nat :=
  u + offsetAt b S idx

/-- get_pointer: the record's byte address plus the idx-th member offset. -/
def get_pointer (S : List MemberMeta) (u : Nat) (idx : Nat) : Nat :=
  u + offset S idx

end offset_based_getter

/-- A cv-qualified reference: a byte address together with the const and
volatile qualification it carries. -/
structure CVRef where
  addr : Nat
  is_const : Bool
  is_volatile : Bool
deriving DecidableEq

namespace offset_based_getter

/-- get: the four overloads for U&, const U&, volatile U& and const volatile U&;
each dereferences the correspondingly qualified get_pointer, so each returns a
reference at the member's address carrying the record's own qualification. -/
def get (S : List MemberMeta) (r : CVRef) (idx : Nat) : CVRef :=
  match r.is_const, r.is_volatile with
  | false, false => ⟨get_pointer S r.addr idx, false, false⟩
  | true,  false => ⟨get_pointer S r.addr idx, true,  false⟩
  | false, true  => ⟨get_pointer S r.addr idx, false, true⟩
  | true,  true  => ⟨get_pointer S r.addr idx, true,  true⟩

end offset_based_getter

/-- tie_as_tuple_with_references: bundle the given references into a
sequence_tuple of references (positional, order-preserving). -/
def tie_as_tuple_with_references (args : List α) : List α := args

/-- my_tuple_cat_impl: expand both tuples entrywise with sequence_tuple::get
over index_sequences of their sizes and retie the results into one tuple. -/
def my_tuple_cat_impl (t1 t2 : List α) : List α :=
  tie_as_tuple_with_references
    (((List.finRange t1.length).map t1.get) ++ ((List.finRange t2.length).map t2.get))

/-- my_tuple_cat: concatenate two reference tuples. -/
def my_tuple_cat (t1 t2 : List α) : List α := my_tuple_cat_impl t1 t2

/-- make_flat_tuple_of_references tuple getter Begin Size: the three overloads,
selected by Size — empty tuple for 0, a one-element tie of getter.get at Begin
for 1, and for larger sizes the my_tuple_cat of the two recursive halves.
The getter applied to the (fixed) tuple is abstracted as `g : Nat → α`. -/
def make_flat_tuple_of_references (g : Nat → α) : Nat → Nat → List α
  | _, 0 => []
  | beg, 1 => [g beg]
  | beg, (n+2) =>
      my_tuple_cat
        (make_flat_tuple_of_references g beg ((n+2)/2))
        (make_flat_tuple_of_references g (beg + (n+2)/2) ((n+2) - (n+2)/2))
termination_by _ n => n
decreasing_by
  · omega
  · omega

/-- Nesting depth of recursive calls of make_flat_tuple_of_references as a
function of the Size argument. -/
def flatten_depth : Nat → Nat
  | 0 => 0
  | 1 => 0
  | (n+2) => 1 + max (flatten_depth ((n+2)/2)) (flatten_depth ((n+2) - (n+2)/2))
termination_by n => n
decreasing_by
  · omega
  · omega

/-- Byte-addressed memory. -/
abbrev Mem := Nat → Nat

/-- Read `len` bytes starting at `addr`. -/
def readBytes (mem : Mem) (addr len : Nat) : List Nat :=
  (List.range len).map (fun k => mem (addr + k))

/-- Write the byte list `v` starting at `addr`; all other bytes keep their value. -/
def writeBytes (mem : Mem) (addr : Nat) (v : List Nat) : Mem :=
  fun a => if addr ≤ a ∧ a < addr + v.length then v.getD (a - addr) 0 else mem a

/-- Memory `mem` holds a record of shape `S` at base address `base` with member
values `vals`: the i-th member value is a byte list of length S_i.size stored
at the i-th member offset. -/
def storesRecord (mem : Mem) (base : Nat) (S : List MemberMeta)
    (vals : List (List Nat)) : Prop :=
  vals.length = S.length ∧
  ∀ i, i < S.length →
    (vals.getD i []).length = (S.getD i ⟨0, 1⟩).size ∧
    readBytes mem (base + (memberOffsets S).getD i 0) ((S.getD i ⟨0, 1⟩).size)
      = vals.getD i []

/-- Concrete member sequence used in witnesses: layout metadata of an int,
a double and a char (as in struct A of the spec's scenario S1). -/
def S0 : List MemberMeta := [⟨4, 4⟩, ⟨8, 8⟩, ⟨1, 1⟩]

/-- Concrete memory used in witnesses: the byte at address a holds a mod 256. -/
def mem0 : Mem := fun a => a % 256

/-- Member values of the record of shape S0 stored at base address 100 in mem0. -/
def vals0 : List (List Nat) :=
  [[100, 101, 102, 103], [108, 109, 110, 111, 112, 113, 114, 115], [116]]

instance (mem : Mem) (base : Nat) (S : List MemberMeta) (vals : List (List Nat)) :
    Decidable (storesRecord mem base S vals) := by
  unfold storesRecord
  infer_instance

/-! Helper lemmas. -/

/-- Rounding up to a multiple never decreases the value. -/
theorem le_alignUp (n : Nat) {a : Nat} (ha : 0 < a) : n ≤ alignUp n a := by
  unfold alignUp
  rw [Nat.mul_comm]
  have hdm := Nat.div_add_mod (n + a - 1) a
  have hlt : (n + a - 1) % a < a := Nat.mod_lt _ ha
  omega

/-- Rounding up a multiple of the alignment is the identity. -/
theorem alignUp_of_dvd {s a : Nat} (ha : 0 < a) (hd : a ∣ s) : alignUp s a = s := by
  obtain ⟨k, hk⟩ := hd
  subst hk
  unfold alignUp
  have h1 : a * k + a - 1 = (a - 1) + a * k := by omega
  rw [h1, Nat.add_mul_div_left _ _ ha, Nat.div_eq_of_lt (by omega), Nat.zero_add,
    Nat.mul_comm]

/-- For well-formed member metadata the surrogate tuple of aligned storage cells
has exactly the member metadata of the original sequence. -/
theorem tuple_of_aligned_storage_eq {S : List MemberMeta} (h : WellFormedMeta S) :
    tuple_of_aligned_storage S = S := by
  unfold tuple_of_aligned_storage internal_aligned_storage
  induction S with
  | nil => rfl
  | cons m ms ih =>
    have hm := h m (by simp)
    simp only [List.map_cons, List.cons.injEq]
    constructor
    · rw [alignUp_of_dvd hm.1 hm.2]
    · exact ih (fun x hx => h x (List.mem_cons_of_mem _ hx))

theorem offsetsFrom_length (cur : Nat) (S : List MemberMeta) :
    (offsetsFrom cur S).length = S.length := by
  induction S generalizing cur with
  | nil => rfl
  | cons m ms ih => simp [offsetsFrom, ih]

/-- Every member offset is at least the starting cursor. -/
theorem le_offsetsFrom (S : List MemberMeta) (hpos : ∀ m ∈ S, 0 < m.align) :
    ∀ cur i, i < S.length → cur ≤ (offsetsFrom cur S).getD i 0 := by
  induction S with
  | nil => intro cur i hi; simp at hi
  | cons m ms ih =>
    intro cur i hi
    match i with
    | 0 =>
      simpa [offsetsFrom] using le_alignUp cur (hpos m (by simp))
    | (j+1) =>
      have h1 : cur ≤ alignUp cur m.align + m.size :=
        Nat.le_trans (le_alignUp cur (hpos m (by simp))) (Nat.le_add_right _ _)
      have h2 := ih (fun x hx => hpos x (List.mem_cons_of_mem _ hx))
        (alignUp cur m.align + m.size) j (by simpa using hi)
      simpa [offsetsFrom] using Nat.le_trans h1 h2

/-- Member storage regions are laid out in strictly increasing, disjoint fashion:
an earlier member's storage ends no later than a later member's begins. -/
theorem offsetsFrom_disjoint (S : List MemberMeta) (hpos : ∀ m ∈ S, 0 < m.align) :
    ∀ cur i j, i < j → j < S.length →
      (offsetsFrom cur S).getD i 0 + (S.getD i ⟨0, 1⟩).size
        ≤ (offsetsFrom cur S).getD j 0 := by
  induction S with
  | nil => intro cur i j hij hj; simp at hj
  | cons m ms ih =>
    intro cur i j hij hj
    match i, j with
    | 0, (j+1) =>
      have h2 := le_offsetsFrom ms (fun x hx => hpos x (List.mem_cons_of_mem _ hx))
        (alignUp cur m.align + m.size) j (by simpa using hj)
      simpa [offsetsFrom] using h2
    | (i+1), (j+1) =>
      have h2 := ih (fun x hx => hpos x (List.mem_cons_of_mem _ hx))
        (alignUp cur m.align + m.size) i j (by omega) (by simpa using hj)
      simpa [offsetsFrom] using h2

/-- my_tuple_cat is plain list concatenation. -/
theorem my_tuple_cat_eq_append (t1 t2 : List α) : my_tuple_cat t1 t2 = t1 ++ t2 := by
  unfold my_tuple_cat my_tuple_cat_impl tie_as_tuple_with_references
  rw [List.finRange_map_get, List.finRange_map_get]

/-- Closed form of the balanced recursion: the flat tuple is the getter mapped
over the index range. -/
theorem make_flat_eq_map_range (g : Nat → α) :
    ∀ n beg, make_flat_tuple_of_references g beg n
      = (List.range n).map (fun k => g (beg + k)) := by
  intro n
  induction n using Nat.strong_induction_on with
  | _ n ih =>
    intro beg
    match n with
    | 0 => simp [make_flat_tuple_of_references]
    | 1 => simp [make_flat_tuple_of_references, List.range_succ]
    | (m+2) =>
      rw [make_flat_tuple_of_references, my_tuple_cat_eq_append,
        ih ((m+2)/2) (by omega) beg, ih ((m+2) - (m+2)/2) (by omega) (beg + (m+2)/2)]
      have hsplit : m + 2 = (m+2)/2 + ((m+2) - (m+2)/2) := by omega
      conv_rhs => rw [hsplit]
      rw [List.range_add, List.map_append, List.map_map]
      congr 1
      apply List.map_congr_left
      intro k _
      simp [Function.comp, Nat.add_assoc]

theorem make_flat_length (g : Nat → α) (beg n : Nat) :
    (make_flat_tuple_of_references g beg n).length = n := by
  rw [make_flat_eq_map_range]; simp

theorem make_flat_getD (g : Nat → α) (beg n k : Nat) (hk : k < n) (d : α) :
    (make_flat_tuple_of_references g beg n).getD k d = g (beg + k) := by
  rw [make_flat_eq_map_range, List.getD_eq_getElem?_getD, List.getElem?_map,
    List.getElem?_range hk]
  rfl

/-- The recursion depth of the balanced split is the ceiling of log2. -/
theorem flatten_depth_eq_clog : ∀ n, flatten_depth n = Nat.clog 2 n := by
  intro n
  induction n using Nat.strong_induction_on with
  | _ n ih =>
    match n with
    | 0 => simp [flatten_depth]
    | 1 => simp [flatten_depth, Nat.clog_one_right]
    | (m+2) =>
      rw [flatten_depth, ih ((m+2)/2) (by omega), ih ((m+2) - (m+2)/2) (by omega)]
      have hmax : Nat.clog 2 ((m+2)/2) ≤ Nat.clog 2 ((m+2) - (m+2)/2) :=
        Nat.clog_mono_right 2 (by omega)
      have hclog : Nat.clog 2 (m+2) = Nat.clog 2 ((m + 2 + 2 - 1) / 2) + 1 :=
        Nat.clog_of_two_le (by omega) (by omega)
      rw [Nat.max_eq_right hmax, hclog]
      have harg : (m+2) - (m+2)/2 = (m + 2 + 2 - 1) / 2 := by omega
      rw [harg]
      omega

/-! Claim theorems. -/

/-- C2: make_flat_tuple_of_references applied at start index `beg` and count `n`
returns a tuple with exactly `n` entries whose k-th entry, for every k < n, is
the reference yielded by the getter at source index beg + k; hence flattening a
record with n members yields the n member references in declaration order and
never any other permutation. -/
theorem C2_flat_tuple_entries {α : Type _} (g : Nat → α) (beg n : Nat) (d : α) :
    (make_flat_tuple_of_references g beg n).length = n ∧
    ∀ k, k < n → (make_flat_tuple_of_references g beg n).getD k d = g (beg + k) := by
  refine ⟨make_flat_length g beg n, ?_⟩
  intro k hk
  exact make_flat_getD g beg n k hk d

/-- Witness for C2 at a concrete getter, start index 2 and count 5. -/
theorem C2_flat_tuple_entries_witness :
    (make_flat_tuple_of_references (fun k => 10 * k) 2 5).length = 5 ∧
    (make_flat_tuple_of_references (fun k => 10 * k) 2 5).getD 3 0 = 10 * (2 + 3) :=
  ⟨(C2_flat_tuple_entries (fun k => 10 * k) 2 5 0).1,
   (C2_flat_tuple_entries (fun k => 10 * k) 2 5 0).2 3 (by decide)⟩

/-- C3: the accessor computes the offset of the idx-th member as the byte
difference between the address of the idx-th cell of a constructed
tuple_of_aligned_storage surrogate (at any base address b) and the address of
the surrogate itself, and for well-formed member metadata this difference
equals the byte offset of the idx-th member inside U. -/
theorem C3_offset_is_byte_difference (S : List MemberMeta) (hwf : WellFormedMeta S)
    (b idx : Nat) :
    offset_based_getter.offsetAt b S idx
      = (b + (memberOffsets (tuple_of_aligned_storage S)).getD idx 0) - b ∧
    offset_based_getter.offsetAt b S idx = (memberOffsets S).getD idx 0 := by
  refine ⟨rfl, ?_⟩
  unfold offset_based_getter.offsetAt
  rw [tuple_of_aligned_storage_eq hwf]
  omega

/-- Witness for C3 at the concrete member sequence S0, surrogate base 7, index 1. -/
theorem C3_offset_is_byte_difference_witness :
    offset_based_getter.offsetAt 7 S0 1
      = (7 + (memberOffsets (tuple_of_aligned_storage S0)).getD 1 0) - 7 ∧
    offset_based_getter.offsetAt 7 S0 1 = (memberOffsets S0).getD 1 0 :=
  C3_offset_is_byte_difference S0 (by decide) 7 1

/-- C4: the builder follows exactly three cases — the empty tuple for count 0, a
one-element tie of the getter at `beg` for count 1, and for count above 1 the
concatenation of the recursive results on [beg, beg + n/2) and
[beg + n/2, beg + n) of sizes n/2 and n - n/2; when n is odd the right half
takes the extra element. -/
theorem C4_builder_three_cases {α : Type _} :
    (∀ (g : Nat → α) (beg : Nat), make_flat_tuple_of_references g beg 0 = []) ∧
    (∀ (g : Nat → α) (beg : Nat), make_flat_tuple_of_references g beg 1 = [g beg]) ∧
    (∀ (g : Nat → α) (beg n : Nat), 1 < n →
      make_flat_tuple_of_references g beg n =
        my_tuple_cat (make_flat_tuple_of_references g beg (n / 2))
          (make_flat_tuple_of_references g (beg + n / 2) (n - n / 2))) ∧
    (∀ n : Nat, 1 < n → n % 2 = 1 → n - n / 2 = n / 2 + 1) := by
  refine ⟨fun g beg => by rw [make_flat_tuple_of_references],
    fun g beg => by rw [make_flat_tuple_of_references], ?_, fun n h1 h2 => by omega⟩
  intro g beg n hn
  obtain ⟨m, rfl⟩ : ∃ m, n = m + 2 := ⟨n - 2, by omega⟩
  rw [make_flat_tuple_of_references]

/-- Witness for C4 at concrete counts 0, 1 and 5. -/
theorem C4_builder_three_cases_witness :
    (make_flat_tuple_of_references (fun k => k) 7 0 = ([] : List Nat)) ∧
    (make_flat_tuple_of_references (fun k => k) 7 1 = [7]) ∧
    (make_flat_tuple_of_references (fun k => k) 0 5 =
      my_tuple_cat (make_flat_tuple_of_references (fun k => k) 0 (5 / 2))
        (make_flat_tuple_of_references (fun k => k) (0 + 5 / 2) (5 - 5 / 2))) ∧
    (5 - 5 / 2 = 5 / 2 + 1) :=
  ⟨(@C4_builder_three_cases Nat).1 (fun k => k) 7,
   (@C4_builder_three_cases Nat).2.1 (fun k => k) 7,
   (@C4_builder_three_cases Nat).2.2.1 (fun k => k) 0 5 (by decide),
   (@C4_builder_three_cases Nat).2.2.2 5 (by decide) (by decide)⟩

/-- C5: instantiating offset_based_getter passes its static assertions exactly
when sizeof(S) equals sizeof(U), alignof(S) equals alignof(U), and U is neither
const-qualified, volatile-qualified, nor a reference type; under any violation
the instantiation is rejected at compile time, and there is no runtime error
channel (the check is a pure compile-time predicate). -/
theorem C5_static_asserts_iff (U : TypeDesc) (S : List MemberMeta) :
    offset_based_getter.statics_ok U S = true ↔
      (U.size = sizeofStruct S ∧ U.align = structAlign S ∧
       U.is_const = false ∧ U.is_volatile = false ∧ U.is_reference = false) := by
  unfold offset_based_getter.statics_ok
  simp only [Bool.and_eq_true, beq_iff_eq, Bool.not_eq_true']
  tauto

/-- C6: my_tuple_cat of two reference tuples of sizes a and b yields a tuple of
size a + b that is position-preserving: entry k of the result is entry k of the
left operand for k < a, and entry a + k is entry k of the right operand for
k < b (each entry is the very same reference, hence aliases the same storage). -/
theorem C6_tuple_cat_position_preserving {α : Type _} (t1 t2 : List α) (d : α) :
    (my_tuple_cat t1 t2).length = t1.length + t2.length ∧
    (∀ k, k < t1.length → (my_tuple_cat t1 t2).getD k d = t1.getD k d) ∧
    (∀ k, k < t2.length → (my_tuple_cat t1 t2).getD (t1.length + k) d = t2.getD k d) := by
  rw [my_tuple_cat_eq_append]
  refine ⟨by simp, ?_, ?_⟩
  · intro k hk
    exact List.getD_append t1 t2 d k hk
  · intro k _hk
    rw [List.getD_append_right t1 t2 d _ (Nat.le_add_right _ _)]
    simp

/-- Witness for C6 at concrete tuples of sizes 2 and 1. -/
theorem C6_tuple_cat_position_preserving_witness :
    (my_tuple_cat [3, 4] [5]).length = 3 ∧
    (my_tuple_cat [3, 4] [5]).getD 0 0 = 3 ∧
    (my_tuple_cat [3, 4] [5]).getD (2 + 0) 0 = 5 :=
  ⟨(C6_tuple_cat_position_preserving [3, 4] [5] 0).1,
   (C6_tuple_cat_position_preserving [3, 4] [5] 0).2.1 0 (by decide),
   (C6_tuple_cat_position_preserving [3, 4] [5] 0).2.2 0 (by decide)⟩

/-- C7: the accessor's get (one overload per const/volatile combination of the
record, four in all) returns, for every record reference and index, a reference
at the idx-th member's address carrying exactly the cv-qualification of the
record it was given. -/
theorem C7_get_propagates_cv (S : List MemberMeta) (r : CVRef) (idx : Nat) :
    (offset_based_getter.get S r idx).is_const = r.is_const ∧
    (offset_based_getter.get S r idx).is_volatile = r.is_volatile ∧
    (offset_based_getter.get S r idx).addr
      = offset_based_getter.get_pointer S r.addr idx := by
  unfold offset_based_getter.get
  rcases r with ⟨a, c, v⟩
  cases c <;> cases v <;> simp

/-- C8: the builder's recursion terminates — for every count above 1 both
recursive counts n/2 and n - n/2 are strictly smaller — and the nesting depth
of recursive calls for an n-member record is the base-2 ceiling logarithm of n,
not n. -/
theorem C8_terminates_log_depth :
    (∀ n : Nat, 1 < n → n / 2 < n ∧ n - n / 2 < n) ∧
    (∀ n : Nat, flatten_depth n = Nat.clog 2 n) :=
  ⟨fun _ hn => ⟨by omega, by omega⟩, flatten_depth_eq_clog⟩

/-- Witness for C8 at the concrete count 5. -/
theorem C8_terminates_log_depth_witness :
    (5 / 2 < 5 ∧ 5 - 5 / 2 < 5) ∧ flatten_depth 5 = Nat.clog 2 5 :=
  ⟨C8_terminates_log_depth.1 5 (by decide), C8_terminates_log_depth.2 5⟩

/-- C10: the accessor's offset computation is deterministic — the byte
difference does not depend on the stack address at which the fresh surrogate
object is constructed, so two get calls on the same record with the same index
(possibly with surrogates at different addresses) return the identical address,
and the surrogate's own address does not escape into the result. -/
theorem C10_offset_deterministic (S : List MemberMeta) (b1 b2 u idx : Nat) :
    offset_based_getter.offsetAt b1 S idx = offset_based_getter.offsetAt b2 S idx ∧
    offset_based_getter.get_pointerAt b1 S u idx
      = offset_based_getter.get_pointerAt b2 S u idx ∧
    offset_based_getter.offsetAt b1 S idx
      = (memberOffsets (tuple_of_aligned_storage S)).getD idx 0 := by
  unfold offset_based_getter.get_pointerAt offset_based_getter.offsetAt
  omega

/-- C1: for a record of shape S stored in memory, entry i of the flattened
reference tuple built with the accessor's get is exactly the address of the
i-th declared member of the record (base address plus its declared byte
offset), and reading through that reference yields the i-th member's stored
bytes — the entry is an address into the record's own storage, so no member is
copied, moved or constructed in producing it. -/
theorem C1_flatten_entry_aliases_member (S : List MemberMeta) (mem : Mem) (base : Nat)
    (vals : List (List Nat)) (hwf : WellFormedMeta S) (hst : storesRecord mem base S vals)
    (i : Nat) (hi : i < S.length) :
    (make_flat_tuple_of_references (fun k => offset_based_getter.get_pointer S base k)
        0 S.length).getD i 0 = base + (memberOffsets S).getD i 0 ∧
    readBytes mem
      ((make_flat_tuple_of_references (fun k => offset_based_getter.get_pointer S base k)
          0 S.length).getD i 0)
      ((S.getD i ⟨0, 1⟩).size) = vals.getD i [] := by
  have hgp : offset_based_getter.get_pointer S base i
      = base + (memberOffsets S).getD i 0 := by
    unfold offset_based_getter.get_pointer offset_based_getter.offset
      offset_based_getter.offsetAt
    rw [tuple_of_aligned_storage_eq hwf]
    omega
  have hentry := make_flat_getD (fun k => offset_based_getter.get_pointer S base k)
    0 S.length i hi 0
  rw [hentry, Nat.zero_add, hgp]
  exact ⟨rfl, (hst.2 i hi).2⟩

/-- Witness for C1 at the record of shape S0 stored at base 100 in mem0, index 1. -/
theorem C1_flatten_entry_aliases_member_witness :
    (make_flat_tuple_of_references (fun k => offset_based_getter.get_pointer S0 100 k)
        0 S0.length).getD 1 0 = 100 + (memberOffsets S0).getD 1 0 ∧
    readBytes mem0
      ((make_flat_tuple_of_references (fun k => offset_based_getter.get_pointer S0 100 k)
          0 S0.length).getD 1 0)
      ((S0.getD 1 ⟨0, 1⟩).size) = vals0.getD 1 [] :=
  C1_flatten_entry_aliases_member S0 mem0 100 vals0 (by decide) (by decide) 1 (by decide)

/-- C9: writing a value through the reference for member i changes only member
i's storage — for any other index j, reading member j afterwards yields exactly
what it held before, and every byte outside member i's storage region keeps its
value — because references for distinct indices point into disjoint member
storage regions. -/
theorem C9_write_through_entry_frames (S : List MemberMeta) (mem : Mem) (base : Nat)
    (v : List Nat) (hwf : WellFormedMeta S) (i j : Nat) (hi : i < S.length)
    (hj : j < S.length) (hne : i ≠ j) (hv : v.length = (S.getD i ⟨0, 1⟩).size) :
    readBytes (writeBytes mem (offset_based_getter.get_pointer S base i) v)
        (offset_based_getter.get_pointer S base j) ((S.getD j ⟨0, 1⟩).size)
      = readBytes mem (offset_based_getter.get_pointer S base j)
          ((S.getD j ⟨0, 1⟩).size) ∧
    ∀ a, (a < offset_based_getter.get_pointer S base i ∨
        offset_based_getter.get_pointer S base i + v.length ≤ a) →
      writeBytes mem (offset_based_getter.get_pointer S base i) v a = mem a := by
  have hpos : ∀ m ∈ S, 0 < m.align := fun m hm => (hwf m hm).1
  have hgp : ∀ t, offset_based_getter.get_pointer S base t
      = base + (memberOffsets S).getD t 0 := by
    intro t
    unfold offset_based_getter.get_pointer offset_based_getter.offset
      offset_based_getter.offsetAt
    rw [tuple_of_aligned_storage_eq hwf]
    omega
  rw [hgp i, hgp j]
  constructor
  · unfold readBytes
    apply List.map_congr_left
    intro k hk
    have hk' : k < (S.getD j ⟨0, 1⟩).size := List.mem_range.mp hk
    unfold writeBytes
    split
    · rename_i hcond
      exfalso
      rcases Nat.lt_or_ge i j with hlt | hge
      · have hd : (memberOffsets S).getD i 0 + (S.getD i ⟨0, 1⟩).size
            ≤ (memberOffsets S).getD j 0 := offsetsFrom_disjoint S hpos 0 i j hlt hj
        omega
      · have hlt' : j < i := by omega
        have hd : (memberOffsets S).getD j 0 + (S.getD j ⟨0, 1⟩).size
            ≤ (memberOffsets S).getD i 0 := offsetsFrom_disjoint S hpos 0 j i hlt' hi
        omega
    · rfl
  · intro a ha
    unfold writeBytes
    split
    · rename_i hcond
      exfalso
      omega
    · rfl

/-- Witness for C9: writing four bytes through member 0's reference of the S0
record at base 100 leaves member 1's bytes and the byte at address 50 unchanged. -/
theorem C9_write_through_entry_frames_witness :
    readBytes (writeBytes mem0 (offset_based_getter.get_pointer S0 100 0) [9, 9, 9, 9])
        (offset_based_getter.get_pointer S0 100 1) ((S0.getD 1 ⟨0, 1⟩).size)
      = readBytes mem0 (offset_based_getter.get_pointer S0 100 1)
          ((S0.getD 1 ⟨0, 1⟩).size) ∧
    writeBytes mem0 (offset_based_getter.get_pointer S0 100 0) [9, 9, 9, 9] 50 = mem0 50 :=
  ⟨(C9_write_through_entry_frames S0 mem0 100 [9, 9, 9, 9] (by decide) 0 1 (by decide)
      (by decide) (by decide) (by decide)).1,
   (C9_write_through_entry_frames S0 mem0 100 [9, 9, 9, 9] (by decide) 0 1 (by decide)
      (by decide) (by decide) (by decide)).2 50 (by decide)⟩

end Pfr
